import Mathlib

/-!
Verification of the `run.js` command-orchestration wrapper of
`relay-compiler-run`: option validation, schema loading, language-plugin
resolution, file-search construction, and the mapping of the external
engine's result to a process exit code.

Filesystem paths are embedded as lists of components measured from the
filesystem root (`path.resolve`d absolute paths), and the external
collaborators (filesystem, watchman client, module loader, codegen engine)
are supplied through an explicit `Env` record, so that `run` becomes a pure
function of its environment and options.
-/

namespace RelayCompilerRun

/-- An absolute filesystem path, as its list of components from the root.
`[]` is the filesystem root `/`. -/
abbrev AbsPath := List String

/-- A raw (possibly relative) path string as supplied in the options,
already split into components. -/
structure RawPath where
  absolute : Bool
  components : List String
deriving DecidableEq, Repr

/-- `path.resolve(cwd, p)`: an absolute path stands alone, a relative path
is appended to the current working directory. -/
def resolvePath (cwd : AbsPath) (p : RawPath) : AbsPath :=
  if p.absolute then p.components else cwd ++ p.components

/-- `path.dirname` on an absolute path: drop the last component; the root
is its own parent. -/
def dirname (p : AbsPath) : AbsPath := p.dropLast

/-- `path.join(p, f)` for a single extra component. -/
def joinPath (p : AbsPath) (f : String) : AbsPath := p ++ [f]

/-- Drop the longest common prefix of two component lists. -/
def dropCommonPrefix : List String → List String → (List String × List String)
  | a :: as, b :: bs => if a = b then dropCommonPrefix as bs else (a :: as, b :: bs)
  | as, bs => (as, bs)

/-- `path.relative(fromDir, toPath)` on already-resolved absolute paths:
climb out of the non-shared part of `fromDir` with `..` segments, then

descend into the non-shared part of `toPath`. -/
def pathRelative (fromDir toPath : AbsPath) : String :=
  let p := dropCommonPrefix fromDir toPath
  String.intercalate "/" (List.replicate p.1.length ".." ++ p.2)

/-- `path.extname` on a basename string: the substring from the final `.`
onwards, except that a name without a `.`, or whose only `.` is the leading
character, has no extension. -/
def extname (base : String) : String :=
  let cs := base.toList
  let e := cs.reverse.takeWhile (· ≠ '.')
  if cs.length ≤ e.length + 1 then "" else String.mk ('.' :: e.reverse)

/-- `path.extname` of the basename of an absolute path. -/
def extnameOfPath (p : AbsPath) : String :=
  match p.getLast? with
  | none => ""
  | some base => extname base

/-- Split a raw option string into a `RawPath` (leading `/` marks it
absolute; empty segments are dropped, as `path.resolve` normalises them). -/
def stringToRawPath (s : String) : RawPath :=
  { absolute := "/".isPrefixOf s
    components := (s.splitOn "/").filter (· ≠ "") }

/-! ### Text utilities for the modelled SDL scanner -/

/-- Split a character list at every occurrence of `sep`; always returns at
least one (possibly empty) segment. -/
def splitOnChar (sep : Char) : List Char → List (List Char)
  | [] => [[]]
  | c :: rest =>
    match splitOnChar sep rest with
    | [] => [[]]
    | l :: ls => if c = sep then [] :: l :: ls else (c :: l) :: ls

/-- The lines of a character list (split at newlines). -/
def splitLines (s : List Char) : List (List Char) := splitOnChar '\n' s

/-- Join the last segment of `xs` onto the first segment of `ys`:
`splitOnChar` of a concatenation is `joinLast` of the two splits. -/
def joinLast : List (List Char) → List (List Char) → List (List Char)
  | [], ys => ys
  | [x], [] => [x]
  | [x], y :: ys => (x ++ y) :: ys
  | x :: xs, ys => x :: joinLast xs ys

/-- Inline whitespace. -/
def isWSChar (c : Char) : Bool := c == ' ' || c == '\t'

/-- Strip leading inline whitespace. -/
def trimLeft (l : List Char) : List Char := l.dropWhile isWSChar

/-- Strip leading and trailing inline whitespace. -/
def trimChars (l : List Char) : List Char := trimLeft (trimLeft l.reverse).reverse

/-- Rejoin lines with newlines (left inverse of `splitLines` on
newline-free lines). -/
def unlines (ls : List (List Char)) : List Char :=
  match ls with
  | [] => []
  | [l] => l
  | l :: ls => l ++ '\n' :: unlines ls

/-! ### Modelled GraphQL schema representation

The repository delegates SDL parsing to the external `graphql` library
(`parse`, `buildASTSchema`, `buildClientSchema`, `printSchema`).  Those
collaborators are modelled from the spec as a line-structured SDL scanner:
a directive declaration is a line whose trimmed form starts with
`directive @`, and an object type is a `type Name {` header line followed
by one `field: Type` line per field and a closing `}` line. -/

/-- A directive declaration: name, arguments (name/type pairs) and
locations. -/
structure DirectiveDecl where
  name : String
  args : List (String × String)
  locations : List String
deriving DecidableEq

/-- An object type: name and field name/type pairs. -/
structure TypeDef where
  name : String
  fields : List (String × String)
deriving DecidableEq

/-- Characters allowed in GraphQL names. -/
def isNameChar (c : Char) : Bool := c.isAlphanum || c == '_'

/-- Parse the comma-separated argument list between the parentheses of a
directive declaration. -/
def parseDirectiveArgs (inside : List Char) : List (String × String) :=
  ((splitOnChar ',' inside).filter (· ≠ [])).map fun a =>
    let a' := trimChars a
    (String.mk (a'.takeWhile (· ≠ ':')),
     String.mk (trimChars ((a'.dropWhile (· ≠ ':')).drop 1)))

/-- Parse the ` on LOC | LOC` tail of a directive declaration. -/
def parseDirectiveLocations (rest : List Char) : List String :=
  let r := trimChars rest
  let r' := if ("on ".toList).isPrefixOf r then r.drop 3 else r
  ((splitOnChar '|' r').map (fun l => String.mk (trimChars l))).filter (· ≠ "")

/-- Parse one (already left-trimmed) `directive @…` line. -/
def parseDirectiveDecl (l : List Char) : DirectiveDecl :=
  let r := l.drop 11
  let name := r.takeWhile isNameChar
  match r.dropWhile isNameChar with
  | '(' :: rest =>
    { name := String.mk name
      args := parseDirectiveArgs (rest.takeWhile (· ≠ ')'))
      locations := parseDirectiveLocations ((rest.dropWhile (· ≠ ')')).drop 1) }
  | afterName =>
    { name := String.mk name, args := [], locations := parseDirectiveLocations afterName }

/-- Does this line (after left-trimming) declare a directive? -/
def isDirectiveLine (l : List Char) : Bool :=
  ("directive @".toList).isPrefixOf (trimLeft l)

/-- All directive declarations of an SDL text, in order. -/
def schemaDirectives (text : String) : List DirectiveDecl :=
  ((splitLines text.data).filter isDirectiveLine).map fun l =>
    parseDirectiveDecl (trimLeft l)

/-- Scan left-trimmed lines for `type Name {` blocks; the second argument
carries the block currently being read (type name and fields so far). -/
def parseTypesAux : List (List Char) → Option (String × List (String × String)) → List TypeDef
  | [], _ => []
  | l :: rest, none =>
    if ("type ".toList).isPrefixOf l then
      parseTypesAux rest (some (String.mk ((l.drop 5).takeWhile isNameChar), []))
    else
      parseTypesAux rest none
  | l :: rest, some (n, fs) =>
    if l = ['\x7d'] then
      ⟨n, fs⟩ :: parseTypesAux rest none
    else if l = [] then
      parseTypesAux rest (some (n, fs))
    else
      parseTypesAux rest
        (some (n, fs ++ [(String.mk (l.takeWhile (· != ':')),
                          String.mk (trimLeft ((l.dropWhile (· != ':')).drop 1)))]))

/-- All object types of an SDL text, in order. -/
def schemaTypes (text : String) : List TypeDef :=
  parseTypesAux ((splitLines text.data).map trimLeft) none

/-- An in-memory schema as exposed by the external schema builder.
Modelled from the spec: the external `parse` + `buildASTSchema`
collaborators ("parses the combined text into an abstract schema
representation"), restricted to line-structured SDL documents; parsing is
total in the model (structural parse errors are out of the claims'
scope). -/
structure GraphQLSchema where
  directives : List DirectiveDecl
  types : List TypeDef
deriving DecidableEq

/-- Build the modelled schema representation of an SDL text. -/
def buildASTSchema (text : String) : GraphQLSchema :=
  ⟨schemaDirectives text, schemaTypes text⟩

/-! ### Introspection JSON and its conversion to SDL -/

/-- Introspection data, as produced by the external `buildClientSchema`
from parsed introspection JSON.  Modelled from the spec: "a structured
JSON description of a GraphQL schema, convertible to SDL", carrying its
type/field set. -/
structure Introspection where
  types : List TypeDef
deriving DecidableEq

/-- The printed lines of one object type: `type Name {`, one line per
field, and a closing brace. -/
def printTypeLines (t : TypeDef) : List (List Char) :=
  ("type " ++ t.name ++ " \x7b").data ::
    (t.fields.map fun f => ("  " ++ f.1 ++ ": " ++ f.2).data) ++ [['\x7d']]

/-- `printSchema` of the external library, modelled from the spec:
"converts it into textual schema-definition-language form". -/
def printSchema (i : Introspection) : String :=
  String.mk (unlines (i.types.flatMap printTypeLines))

/-- GraphQL names well-formed enough for the modelled printer/scanner
round trip: non-empty and made of name characters. -/
def wfName (s : String) : Bool := !s.data.isEmpty && s.data.all isNameChar

/-- Well-formedness of one introspected type. -/
def wfTypeDef (t : TypeDef) : Bool :=
  wfName t.name && t.fields.all fun f => wfName f.1 && wfName f.2

/-- Well-formedness of introspection data. -/
def wfIntrospection (i : Introspection) : Bool := i.types.all wfTypeDef

/-! ### The schema loader -/

/-- The two directive declarations prepended by `getSchema`, verbatim from
the source: the template literal
`` `\n  directive @include(if: Boolean) on FRAGMENT_SPREAD | FIELD\n  directive @skip(if: Boolean) on FRAGMENT_SPREAD | FIELD\n\n  ${source}\n  ` ``. -/
def directivesPrefix : String :=
  "\n  directive @include(if: Boolean) on FRAGMENT_SPREAD | FIELD\n  directive @skip(if: Boolean) on FRAGMENT_SPREAD | FIELD\n\n  "

/-- The text handed to the SDL parser: the fixed directive declarations,
the source, and the closing indentation of the template literal. -/
def injectDirectives (source : String) : String :=
  directivesPrefix ++ source ++ "\n  "

/-- The `include` declaration's parsed form: one boolean `if` argument,
applicable to fragment spreads and fields. -/
def includeDirectiveDecl : DirectiveDecl :=
  { name := "include", args := [("if", "Boolean")], locations := ["FRAGMENT_SPREAD", "FIELD"] }

/-- The `skip` declaration's parsed form: one boolean `if` argument,
applicable to fragment spreads and fields. -/
def skipDirectiveDecl : DirectiveDecl :=
  { name := "skip", args := [("if", "Boolean")], locations := ["FRAGMENT_SPREAD", "FIELD"] }

/-! ### Language plugins -/

/-- The capabilities of a language plugin used by `run` (the tag finder,
module formatter and type generator are opaque to every verified
property and are elided). -/
structure PluginInterface where
  inputExtensions : List String
  outputExtension : String
deriving DecidableEq

/-- The built-in plugin instance `new RelayLanguagePluginJavascript()`.
Modelled from the spec: the external built-in JavaScript plugin with its
input and output extensions. -/
def RelayLanguagePluginJavascript : PluginInterface :=
  { inputExtensions := ["js"], outputExtension := "js" }

/-- A JavaScript module value, as far as the plugin resolver inspects it:
either a factory function (carrying the plugin instance a no-argument
call returns) or some non-function value. -/
inductive ModuleValue where
  | func (plugin : PluginInterface)
  | other
deriving DecidableEq

/-- A loaded module: a truthy `default` export (if any) plus the module
value itself. -/
structure JSModule where
  defaultExport : Option ModuleValue
  selfValue : ModuleValue
deriving DecidableEq

/-- `if (languagePlugin.default) languagePlugin = languagePlugin.default`. -/
def unwrapDefault (m : JSModule) : ModuleValue :=
  match m.defaultExport with
  | some d => d
  | none => m.selfValue

/-- What `require` is asked to load: an existing filesystem path, or a
package identifier. -/
inductive RequireTarget where
  | filePath (p : AbsPath)
  | package (name : String)
deriving DecidableEq

/-- The display name of a require target, as interpolated into the
plugin-load error message. -/
def requireTargetName : RequireTarget → String
  | .filePath p => "/" ++ String.intercalate "/" p
  | .package n => n

/-- A plugin-resolution failure: the attempted resolution location and
the underlying cause. -/
inductive PluginError where
  | loadError (requirePath : String) (cause : String)
deriving DecidableEq

/-! ### The environment: external collaborators of `run` -/

/-- The external world `run` interacts with: the working directory, the
filesystem (`fs.existsSync`, `fs.readFileSync`), the introspection-JSON
decoder (`JSON.parse` + `buildClientSchema`, external), the watchman
availability probe, the dynamic module loader (`require`), and the
codegen engine's two entry points, each yielding a result tag among at
least SUCCESS, NO_CHANGES and ERROR. -/
structure Env where
  cwd : AbsPath
  fsExists : AbsPath → Bool
  readFile : AbsPath → Option String
  decodeIntrospection : String → Option Introspection
  watchmanAvailable : Bool
  loadModule : RequireTarget → Except String JSModule
  engineCompileAll : String
  engineWatchAll : String

/-- The SDL source text obtained from the schema file's contents: a file
whose extension is `.json` is first parsed as introspection JSON and
converted to SDL text (`printSchema(buildClientSchema(JSON.parse(source).data))`);
any other file's contents are used directly. -/
def schemaSDLSource (env : Env) (schemaPath : AbsPath) (contents : String) : Except String String :=
  if extnameOfPath schemaPath = ".json" then
    match env.decodeIntrospection contents with
    | none => Except.error "Unexpected token in JSON"
    | some intro => Except.ok (printSchema intro)
  else Except.ok contents

/-- `getSchema(schemaPath)`: read the file, convert `.json` introspection
input to SDL text, prepend the two directive declarations and build the
schema.  A read or decode failure is reported as a schema-load error
(`Except.error` carries the error detail). -/
def getSchema (env : Env) (schemaPath : AbsPath) : Except String GraphQLSchema :=
  match env.readFile schemaPath with
  | none => Except.error ("ENOENT: no such file or directory " ++ requireTargetName (.filePath schemaPath))
  | some contents =>
    match schemaSDLSource env schemaPath contents with
    | Except.error e => Except.error e
    | Except.ok source => Except.ok (buildASTSchema (injectDirectives source))

/-- `getLanguagePlugin(language)`: the built-in identifier short-circuits
to the built-in plugin; otherwise the identifier is resolved as an
existing filesystem path or, failing that, as the conventionally prefixed
package, which is dynamically loaded, unwrapped from a `default` export
and invoked as a factory function.  Every failure is wrapped naming the
attempted location and the cause. -/
def getLanguagePlugin (env : Env) (language : String) : Except PluginError PluginInterface :=
  if language = "javascript" then
    Except.ok RelayLanguagePluginJavascript
  else
    let pluginPath := resolvePath env.cwd (stringToRawPath language)
    let requirePath : RequireTarget :=
      if env.fsExists pluginPath then .filePath pluginPath
      else .package ("relay-compiler-language-" ++ language)
    match env.loadModule requirePath with
    | Except.error msg =>
      Except.error (.loadError (requireTargetName requirePath) msg)
    | Except.ok m =>
      match unwrapDefault m with
      | .func p => Except.ok p
      | .other =>
        Except.error (.loadError (requireTargetName requirePath)
          "Expected plugin to export a function.")

/-! ### Watchman root files -/

/-- The repository root markers accepted by watchman. -/
def WATCHMAN_ROOT_FILES : List String := [".git", ".hg", ".watchmanconfig"]

/-- The loop of `hasWatchmanRootFile`, structurally recursive over the
reversed component list: dropping the head of the reversed list is
exactly the `testPath = path.dirname(testPath)` step of the source's
`while` loop, and the empty reversed list is the filesystem root, the
unique fixpoint of `dirname`, at which the loop condition
`path.dirname(testPath) !== testPath` fails without a further check. -/
def hasWatchmanRootFileRev (fsExists : AbsPath → Bool) : List String → Bool
  | [] => false
  | c :: rest =>
    (WATCHMAN_ROOT_FILES.any fun file => fsExists (joinPath (c :: rest).reverse file))
    || hasWatchmanRootFileRev fsExists rest

/-- `hasWatchmanRootFile(testPath)`: walk `testPath` and its parents while
a directory differs from its own parent, returning true as soon as one of
the root markers exists in the current directory.  The source's `while`
loop terminates because `dirname` strictly shortens every non-root path;
the recursion over the reversed component list makes that measure
structural. -/
def hasWatchmanRootFile (fsExists : AbsPath → Bool) (testPath : AbsPath) : Bool :=
  hasWatchmanRootFileRev fsExists testPath.reverse

/-! ### Run options, errors and the run itself -/

/-- The options record consumed by `run`.  `extensions` is optional
because the source guards `options.extensions || …`; `watch` is the
source's `?boolean`. -/
structure RunOptions where
  schema : RawPath
  src : RawPath
  extensions : Option (List String)
  «include» : List String
  exclude : List String
  verbose : Bool
  watchman : Bool
  watch : Option Bool
  validate : Bool
  quiet : Bool
  noFutureProofEnums : Bool
  language : String
  artifactDirectory : Option RawPath
  customScalars : List (String × String)
deriving DecidableEq

/-- The distinct errors `run` can throw, one constructor per `throw`
site (schema-load and plugin-load failures carry their detail). -/
inductive RunError where
  | schemaPathNotExist (schemaPath : AbsPath)
  | srcPathNotExist (srcDir : AbsPath)
  | watchmanRequired
  | watchRootFileMissing (srcDir : AbsPath)
  | verboseAndQuiet
  | schemaLoadError (detail : String)
  | pluginLoadError (requirePath : String) (cause : String)
deriving DecidableEq

/-- The option-validation errors (thrown by the validator before any
schema load, plugin load or engine work). -/
def isConfigurationError : RunError → Bool
  | .schemaPathNotExist _ => true
  | .srcPathNotExist _ => true
  | .watchmanRequired => true
  | .watchRootFileMissing _ => true
  | .verboseAndQuiet => true
  | _ => false

/-- One logical file search: extensions, include patterns and exclude
patterns. -/
structure SearchOptions where
  extensions : List String
  «include» : List String
  exclude : List String
deriving DecidableEq

/-- The observable outcome of a run that reached the engine-delegation
point: the wiring it constructed and the process exit code (`0` models
normal completion). -/
structure RunTrace where
  useWatchman : Bool
  schema : GraphQLSchema
  languagePlugin : PluginInterface
  sourceParserName : String
  sourceWriterName : String
  generatedDirectoryName : String
  sourceSearch : SearchOptions
  graphqlSearch : SearchOptions
  exitCode : Nat
deriving DecidableEq

/-- The option validator (spec §4.1): the five checks of lines 50-77 of
the source, in source order, returning the first failing check's error. -/
def validateOptions (env : Env) (options : RunOptions) : Option RunError :=
  let schemaPath := resolvePath env.cwd options.schema
  if !env.fsExists schemaPath then
    some (.schemaPathNotExist schemaPath)
  else
    let srcDir := resolvePath env.cwd options.src
    if !env.fsExists srcDir then
      some (.srcPathNotExist srcDir)
    else if options.watch.getD false && !options.watchman then
      some .watchmanRequired
    else if options.watch.getD false && !hasWatchmanRootFile env.fsExists srcDir then
      some (.watchRootFileMissing srcDir)
    else if options.verbose && options.quiet then
      some .verboseAndQuiet
    else
      none

/-- The runner wiring (spec §4.5): name derivation, search construction,
engine delegation and the translation of the engine result into a
process exit code (lines 90-181 of the source, given the loaded schema
and the resolved plugin). -/
def buildTrace (env : Env) (options : RunOptions)
    (schema : GraphQLSchema) (languagePlugin : PluginInterface) : RunTrace :=
  let schemaPath := resolvePath env.cwd options.schema
  let srcDir := resolvePath env.cwd options.src
  let useWatchman := options.watchman && env.watchmanAvailable
  let inputExtensions := options.extensions.getD languagePlugin.inputExtensions
  let outputExtension := languagePlugin.outputExtension
  let artifactDirectory := options.artifactDirectory.map (resolvePath env.cwd)
  let generatedDirectoryName :=
    match artifactDirectory with
    | some p => requireTargetName (.filePath p)
    | none => "__generated__"
  let sourceSearchOptions : SearchOptions :=
    { extensions := inputExtensions
      «include» := options.«include»
      exclude := "**/*.graphql.*" :: options.exclude }
  let graphqlSearchOptions : SearchOptions :=
    { extensions := ["graphql"]
      «include» := options.«include»
      exclude := pathRelative srcDir schemaPath :: options.exclude }
  let result :=
    if options.watch.getD false then env.engineWatchAll
    else env.engineCompileAll
  let exitCode : Nat :=
    if result = "ERROR" then 100
    else if options.validate && result ≠ "NO_CHANGES" then 101
    else 0
  { useWatchman := useWatchman
    schema := schema
    languagePlugin := languagePlugin
    sourceParserName := String.intercalate "/" inputExtensions
    sourceWriterName := outputExtension
    generatedDirectoryName := generatedDirectoryName
    sourceSearch := sourceSearchOptions
    graphqlSearch := graphqlSearchOptions
    exitCode := exitCode }

/-- The exported `run(options)` function: option validation, schema load,
plugin resolution, then the runner wiring of `buildTrace`.  The engine
entry points are consulted only inside `buildTrace` to produce the final
`exitCode`, so an `Except.error` result is independent of
`env.engineCompileAll` / `env.engineWatchAll`: such a run fails before
any engine invocation. -/
def run (env : Env) (options : RunOptions) : Except RunError RunTrace :=
  match validateOptions env options with
  | some e => Except.error e
  | none =>
    match getSchema env (resolvePath env.cwd options.schema) with
    | Except.error detail => Except.error (.schemaLoadError detail)
    | Except.ok schema =>
      match getLanguagePlugin env options.language with
      | Except.error (.loadError rp cause) => Except.error (.pluginLoadError rp cause)
      | Except.ok languagePlugin => Except.ok (buildTrace env options schema languagePlugin)

/-! ### Result classifiers used by the counterexamples -/

/-- Did the run fail with the mutual-exclusivity error? -/
def isVerboseQuietError : Except RunError RunTrace → Bool
  | .error .verboseAndQuiet => true
  | _ => false

/-- Did the run fail with the watchman root-file error? -/
def isRootFileError : Except RunError RunTrace → Bool
  | .error (.watchRootFileMissing _) => true
  | _ => false

/-! ### Concrete fixtures -/

/-- An environment whose filesystem is empty. -/
def emptyFsEnv : Env :=
  { cwd := []
    fsExists := fun _ => false
    readFile := fun _ => none
    decodeIntrospection := fun _ => none
    watchmanAvailable := false
    loadModule := fun _ => Except.error "Cannot find module"
    engineCompileAll := "SUCCESS"
    engineWatchAll := "SUCCESS" }

/-- An environment in which every path exists and every file reads as a
minimal SDL schema. -/
def okEnv : Env :=
  { cwd := []
    fsExists := fun _ => true
    readFile := fun _ => some "type Query"
    decodeIntrospection := fun _ => none
    watchmanAvailable := false
    loadModule := fun _ => Except.error "Cannot find module"
    engineCompileAll := "SUCCESS"
    engineWatchAll := "SUCCESS" }

/-- `okEnv` with an introspection decoder returning one concrete type. -/
def jsonEnv : Env :=
  { cwd := []
    fsExists := fun _ => true
    readFile := fun _ => some "introspection-json"
    decodeIntrospection := fun _ => some ⟨[⟨"Query", [("hero", "Character")]⟩]⟩
    watchmanAvailable := false
    loadModule := fun _ => Except.error "Cannot find module"
    engineCompileAll := "SUCCESS"
    engineWatchAll := "SUCCESS" }

/-- An environment whose filesystem holds exactly the schema file and the
root directory (used as the source directory), and no root markers. -/
def rootEnv : Env :=
  { cwd := []
    fsExists := fun p => decide (p = ["schema.graphql"] ∨ p = [])
    readFile := fun _ => some "type Query"
    decodeIntrospection := fun _ => none
    watchmanAvailable := true
    loadModule := fun _ => Except.error "Cannot find module"
    engineCompileAll := "SUCCESS"
    engineWatchAll := "SUCCESS" }

/-- A plain option set: absolute schema and src paths, built-in language,
no watch, no validate. -/
def baseOptions : RunOptions :=
  { schema := ⟨true, ["schema.graphql"]⟩
    src := ⟨true, ["src"]⟩
    extensions := some ["js"]
    «include» := ["**"]
    exclude := []
    verbose := false
    watchman := false
    watch := none
    validate := false
    quiet := false
    noFutureProofEnums := false
    language := "javascript"
    artifactDirectory := none
    customScalars := [] }

/-- `baseOptions` with both `verbose` and `quiet` requested. -/
def vqOptions : RunOptions := { baseOptions with verbose := true, quiet := true }

/-- `baseOptions` with watch mode requested (watchman enabled) and the
filesystem root as the source directory. -/
def watchOptions : RunOptions :=
  { baseOptions with src := ⟨true, []⟩, watch := some true, watchman := true }

/-- The trace produced by `run okEnv baseOptions`. -/
def okTrace : RunTrace :=
  { useWatchman := false
    schema := buildASTSchema (injectDirectives "type Query")
    languagePlugin := RelayLanguagePluginJavascript
    sourceParserName := "js"
    sourceWriterName := "js"
    generatedDirectoryName := "__generated__"
    sourceSearch := { extensions := ["js"], «include» := ["**"], exclude := ["**/*.graphql.*"] }
    graphqlSearch := { extensions := ["graphql"], «include» := ["**"], exclude := ["../schema.graphql"] }
    exitCode := 0 }

/-! ## Helper lemmas -/

/-- Unfolding `hasWatchmanRootFile` by one `dirname` step. -/
theorem hasWatchmanRootFile_concat (fsEx : AbsPath → Bool) (as : AbsPath) (a : String) :
    hasWatchmanRootFile fsEx (as ++ [a]) =
      ((WATCHMAN_ROOT_FILES.any fun f => fsEx (joinPath (as ++ [a]) f))
        || hasWatchmanRootFile fsEx as) := by
  simp [hasWatchmanRootFile, hasWatchmanRootFileRev]

/-- `hasWatchmanRootFile` succeeds exactly when a root marker exists in
one of the directories the loop visits: the non-root prefixes of the
path. -/
theorem hasWatchmanRootFile_spec (fsEx : AbsPath → Bool) (p : AbsPath) :
    hasWatchmanRootFile fsEx p = true ↔
      ∃ q : AbsPath, q ≠ [] ∧ q <+: p ∧
        (WATCHMAN_ROOT_FILES.any fun f => fsEx (joinPath q f)) = true := by
  induction p using List.reverseRecOn with
  | nil =>
    simp [hasWatchmanRootFile, hasWatchmanRootFileRev]
    rintro q hq hpre
    exact absurd hpre hq
  | append_singleton as a ih =>
    rw [hasWatchmanRootFile_concat, Bool.or_eq_true, ih]
    constructor
    · rintro (hany | ⟨q, hne, hpre, hq⟩)
      · exact ⟨as ++ [a], by simp, List.prefix_rfl, hany⟩
      · exact ⟨q, hne, hpre.trans (List.prefix_append as [a]), hq⟩
    · rintro ⟨q, hne, hpre, hq⟩
      obtain ⟨t, ht⟩ := hpre
      rcases List.eq_nil_or_concat t with rfl | ⟨t', b, rfl⟩
      · rw [List.append_nil] at ht
        subst ht
        exact Or.inl hq
      · right
        rw [List.concat_eq_append, ← List.append_assoc] at ht
        have h1 : q ++ t' = as := by
          have := congrArg List.dropLast ht
          simpa [List.dropLast_concat] using this
        exact ⟨q, hne, ⟨t', h1⟩, hq⟩

/-- A successful run passed validation, loaded the schema, resolved the
plugin, and returned the wiring trace. -/
theorem run_ok_inversion (env : Env) (options : RunOptions) (tr : RunTrace)
    (h : run env options = Except.ok tr) :
    validateOptions env options = none ∧
    ∃ schema languagePlugin,
      getSchema env (resolvePath env.cwd options.schema) = Except.ok schema ∧
      getLanguagePlugin env options.language = Except.ok languagePlugin ∧
      tr = buildTrace env options schema languagePlugin := by
  cases hval : validateOptions env options with
  | some e => simp [run, hval] at h
  | none =>
    cases hs : getSchema env (resolvePath env.cwd options.schema) with
    | error d => simp [run, hval, hs] at h
    | ok schema =>
      cases hp : getLanguagePlugin env options.language with
      | error pe =>
        cases pe with
        | loadError rp cause => simp [run, hval, hs, hp] at h
      | ok lp =>
        simp [run, hval, hs, hp] at h
        exact ⟨rfl, schema, lp, rfl, rfl, h.symm⟩

/-- With both `verbose` and `quiet` set, validation always fails, and it
fails with the mutual-exclusivity error exactly when every earlier check
passes. -/
theorem validateOptions_verbose_quiet (env : Env) (options : RunOptions)
    (hv : options.verbose = true) (hq : options.quiet = true) :
    (∃ e, validateOptions env options = some e) ∧
    (env.fsExists (resolvePath env.cwd options.schema) = true →
      env.fsExists (resolvePath env.cwd options.src) = true →
      (options.watch.getD false = false ∨
        (options.watchman = true ∧
          hasWatchmanRootFile env.fsExists (resolvePath env.cwd options.src) = true)) →
      validateOptions env options = some RunError.verboseAndQuiet) := by
  constructor
  · cases h1 : env.fsExists (resolvePath env.cwd options.schema) with
    | false =>
      exact ⟨.schemaPathNotExist (resolvePath env.cwd options.schema),
        by simp [validateOptions, h1]⟩
    | true =>
      cases h2 : env.fsExists (resolvePath env.cwd options.src) with
      | false =>
        exact ⟨.srcPathNotExist (resolvePath env.cwd options.src),
          by simp [validateOptions, h1, h2]⟩
      | true =>
        cases hw : options.watch.getD false with
        | false => exact ⟨.verboseAndQuiet, by simp [validateOptions, h1, h2, hw, hv, hq]⟩
        | true =>
          cases hwm : options.watchman with
          | false => exact ⟨.watchmanRequired, by simp [validateOptions, h1, h2, hw, hwm]⟩
          | true =>
            cases hroot : hasWatchmanRootFile env.fsExists (resolvePath env.cwd options.src) with
            | false =>
              exact ⟨.watchRootFileMissing (resolvePath env.cwd options.src),
                by simp [validateOptions, h1, h2, hw, hwm, hroot]⟩
            | true =>
              exact ⟨.verboseAndQuiet, by simp [validateOptions, h1, h2, hw, hwm, hroot, hv, hq]⟩
  · intro h1 h2 h3
    rcases h3 with hw | ⟨hwm, hroot⟩
    · simp [validateOptions, h1, h2, hw, hv, hq]
    · cases hw : options.watch.getD false with
      | false => simp [validateOptions, h1, h2, hw, hv, hq]
      | true => simp [validateOptions, h1, h2, hw, hwm, hroot, hv, hq]

/-- Every validation error is one of the configuration errors. -/
theorem validateOptions_isConfigurationError (env : Env) (options : RunOptions) (e : RunError)
    (h : validateOptions env options = some e) : isConfigurationError e = true := by
  revert h
  simp only [validateOptions]
  split
  · rintro h; cases h; rfl
  · split
    · rintro h; cases h; rfl
    · split
      · rintro h; cases h; rfl
      · split
        · rintro h; cases h; rfl
        · split
          · rintro h; cases h; rfl
          · rintro h; cases h

/-! ## Claim theorems -/

/-- C1: for every run that reaches the engine-delegation point (i.e. that
returns a trace), the engine result — `watchAll()` in watch mode,
`compileAll()` otherwise — is mapped to the process exit code as follows:
the generic `ERROR` result exits with code 100; otherwise, in
validate-only mode, any result other than `NO_CHANGES` exits with
code 101; otherwise the run completes normally (exit code 0). -/
theorem run_exit_code_mapping (env : Env) (options : RunOptions) (tr : RunTrace)
    (h : run env options = Except.ok tr) :
    ((if options.watch.getD false then env.engineWatchAll else env.engineCompileAll) = "ERROR" →
      tr.exitCode = 100) ∧
    ((if options.watch.getD false then env.engineWatchAll else env.engineCompileAll) ≠ "ERROR" →
      options.validate = true →
      (if options.watch.getD false then env.engineWatchAll else env.engineCompileAll) ≠ "NO_CHANGES" →
      tr.exitCode = 101) ∧
    ((if options.watch.getD false then env.engineWatchAll else env.engineCompileAll) ≠ "ERROR" →
      (options.validate = false ∨
        (if options.watch.getD false then env.engineWatchAll else env.engineCompileAll) = "NO_CHANGES") →
      tr.exitCode = 0) := by
  obtain ⟨hval, schema, lp, hs, hp, htr⟩ := run_ok_inversion env options tr h
  subst htr
  refine ⟨?_, ?_, ?_⟩
  · intro he
    simp [buildTrace, he]
  · intro he hv hnc
    simp [buildTrace, he, hv, hnc]
  · intro he hd
    rcases hd with hv | hnc
    · simp [buildTrace, he, hv]
    · simp [buildTrace, he, hnc]

/-- C1 witness: a concrete successful run (engine result `SUCCESS`,
validate off) satisfies the exit-code mapping. -/
theorem run_exit_code_mapping_witness :
    ((if baseOptions.watch.getD false then okEnv.engineWatchAll else okEnv.engineCompileAll) = "ERROR" →
      okTrace.exitCode = 100) ∧
    ((if baseOptions.watch.getD false then okEnv.engineWatchAll else okEnv.engineCompileAll) ≠ "ERROR" →
      baseOptions.validate = true →
      (if baseOptions.watch.getD false then okEnv.engineWatchAll else okEnv.engineCompileAll) ≠ "NO_CHANGES" →
      okTrace.exitCode = 101) ∧
    ((if baseOptions.watch.getD false then okEnv.engineWatchAll else okEnv.engineCompileAll) ≠ "ERROR" →
      (baseOptions.validate = false ∨
        (if baseOptions.watch.getD false then okEnv.engineWatchAll else okEnv.engineCompileAll) = "NO_CHANGES") →
      okTrace.exitCode = 0) :=
  run_exit_code_mapping okEnv baseOptions okTrace rfl

/-- C2 counterexample: with both `verbose` and `quiet` set but a
non-existing schema path, the run fails with the schema-path error, not
the mutual-exclusivity error — so the claim's "regardless of … whether
the schema and src paths exist" fails as stated. -/
theorem run_verbose_quiet_counterexample :
    vqOptions.verbose = true ∧ vqOptions.quiet = true ∧
    run emptyFsEnv vqOptions = Except.error (RunError.schemaPathNotExist ["schema.graphql"]) ∧
    isVerboseQuietError (run emptyFsEnv vqOptions) = false :=
  ⟨rfl, rfl, rfl, rfl⟩

/-- C2 (amended): with both `verbose` and `quiet` set the run always
fails with a configuration error before any engine invocation, and it
fails with the mutual-exclusivity error whenever the checks preceding it
pass (schema and src paths exist, and watch mode is off or its
prerequisites hold). -/
theorem run_verbose_quiet_amended (env : Env) (options : RunOptions)
    (hv : options.verbose = true) (hq : options.quiet = true) :
    (∃ e, run env options = Except.error e ∧ isConfigurationError e = true) ∧
    (env.fsExists (resolvePath env.cwd options.schema) = true →
      env.fsExists (resolvePath env.cwd options.src) = true →
      (options.watch.getD false = false ∨
        (options.watchman = true ∧
          hasWatchmanRootFile env.fsExists (resolvePath env.cwd options.src) = true)) →
      run env options = Except.error RunError.verboseAndQuiet) := by
  obtain ⟨⟨e, he⟩, himp⟩ := validateOptions_verbose_quiet env options hv hq
  constructor
  · exact ⟨e, by simp [run, he], validateOptions_isConfigurationError env options e he⟩
  · intro h1 h2 h3
    simp [run, himp h1 h2 h3]

/-- C2 witness: a concrete verbose-and-quiet option set over an existing
filesystem fails with the mutual-exclusivity error. -/
theorem run_verbose_quiet_amended_witness :
    run okEnv vqOptions = Except.error RunError.verboseAndQuiet :=
  (run_verbose_quiet_amended okEnv vqOptions rfl rfl).2 rfl rfl (Or.inl rfl)

/-- C3: whenever the resolved schema path or the resolved src path does
not exist, the run fails with a configuration error; the error result
holds for every engine behaviour (`env` is arbitrary in its engine
fields), so the failure precedes any engine invocation. -/
theorem run_missing_path_fails (env : Env) (options : RunOptions)
    (h : env.fsExists (resolvePath env.cwd options.schema) = false ∨
         env.fsExists (resolvePath env.cwd options.src) = false) :
    ∃ e, run env options = Except.error e ∧ isConfigurationError e = true := by
  cases h1 : env.fsExists (resolvePath env.cwd options.schema) with
  | false =>
    refine ⟨.schemaPathNotExist (resolvePath env.cwd options.schema), ?_, rfl⟩
    have hval : validateOptions env options =
        some (.schemaPathNotExist (resolvePath env.cwd options.schema)) := by
      simp [validateOptions, h1]
    simp [run, hval]
  | true =>
    have h2 : env.fsExists (resolvePath env.cwd options.src) = false := by
      rcases h with h | h
      · rw [h1] at h; cases h
      · exact h
    refine ⟨.srcPathNotExist (resolvePath env.cwd options.src), ?_, rfl⟩
    have hval : validateOptions env options =
        some (.srcPathNotExist (resolvePath env.cwd options.src)) := by
      simp [validateOptions, h1, h2]
    simp [run, hval]

/-- C3 witness: over the empty filesystem, a concrete option set fails
with a configuration error. -/
theorem run_missing_path_fails_witness :
    ∃ e, run emptyFsEnv baseOptions = Except.error e ∧ isConfigurationError e = true :=
  run_missing_path_fails emptyFsEnv baseOptions (Or.inl rfl)

/-- C4 counterexample: with `watch=true`, `watchman=true` and no root
marker anywhere (the source directory is the root, which has no `.git`,
`.hg` or `.watchmanconfig` entry), but a non-existing schema path, the
run fails with the schema-path error, not the root-file error — so the
claim's universal quantification over all such option sets fails as
stated. -/
theorem run_watch_no_root_counterexample :
    watchOptions.watch = some true ∧ watchOptions.watchman = true ∧
    emptyFsEnv.fsExists [".git"] = false ∧
    emptyFsEnv.fsExists [".hg"] = false ∧
    emptyFsEnv.fsExists [".watchmanconfig"] = false ∧
    hasWatchmanRootFile emptyFsEnv.fsExists (resolvePath emptyFsEnv.cwd watchOptions.src) = false ∧
    run emptyFsEnv watchOptions = Except.error (RunError.schemaPathNotExist ["schema.graphql"]) ∧
    isRootFileError (run emptyFsEnv watchOptions) = false :=
  ⟨rfl, rfl, rfl, rfl, rfl, rfl, rfl, rfl⟩

/-- C4 (amended): with `watch=true`, `watchman=true`, existing schema and
src paths, and no root marker in the source directory or any ancestor,
the run fails with the root-file error; the error result holds for every
engine behaviour, so the failure precedes any engine invocation. -/
theorem run_watch_no_root_amended (env : Env) (options : RunOptions)
    (hschema : env.fsExists (resolvePath env.cwd options.schema) = true)
    (hsrc : env.fsExists (resolvePath env.cwd options.src) = true)
    (hw : options.watch = some true) (hwm : options.watchman = true)
    (hroot : ∀ q : AbsPath, q <+: resolvePath env.cwd options.src →
      ∀ f ∈ WATCHMAN_ROOT_FILES, env.fsExists (joinPath q f) = false) :
    run env options =
      Except.error (RunError.watchRootFileMissing (resolvePath env.cwd options.src)) := by
  have hfalse : hasWatchmanRootFile env.fsExists (resolvePath env.cwd options.src) = false := by
    rw [Bool.eq_false_iff]
    intro habs
    obtain ⟨q, hne, hpre, hq⟩ := (hasWatchmanRootFile_spec _ _).mp habs
    rw [List.any_eq_true] at hq
    obtain ⟨f, hf, hfex⟩ := hq
    rw [hroot q hpre f hf] at hfex
    cases hfex
  have hval : validateOptions env options =
      some (RunError.watchRootFileMissing (resolvePath env.cwd options.src)) := by
    simp [validateOptions, hschema, hsrc, hw, hwm, hfalse]
  simp [run, hval]

/-- C4 witness: a concrete watch-mode option set whose source directory
is the marker-free filesystem root fails with the root-file error. -/
theorem run_watch_no_root_amended_witness :
    run rootEnv watchOptions = Except.error (RunError.watchRootFileMissing []) :=
  run_watch_no_root_amended rootEnv watchOptions rfl rfl rfl rfl
    (by
      intro q hq f hf
      have hqe : q = [] := List.prefix_nil.mp hq
      subst hqe
      fin_cases hf <;> rfl)

/-- C7: for the built-in identifier `javascript` the plugin resolver
returns the built-in plugin instance directly; the result is the same for
every environment — in particular for every filesystem and every module
loader — so no filesystem check and no dynamic module load can influence
it. -/
theorem getLanguagePlugin_javascript_builtin (env : Env) :
    getLanguagePlugin env "javascript" = Except.ok RelayLanguagePluginJavascript := rfl

/-- C7 witness: the resolver returns the built-in plugin in a concrete
environment. -/
theorem getLanguagePlugin_javascript_builtin_witness :
    getLanguagePlugin okEnv "javascript" = Except.ok RelayLanguagePluginJavascript :=
  getLanguagePlugin_javascript_builtin okEnv

/-- C8: for a non-built-in language with no matching filesystem path, a
failing package load — or a load whose unwrapped value is not a
function — makes the resolver fail with an error naming the prefixed
package identifier and carrying the underlying cause. -/
theorem getLanguagePlugin_load_failure (env : Env) (language : String)
    (hlang : language ≠ "javascript")
    (hfs : env.fsExists (resolvePath env.cwd (stringToRawPath language)) = false) :
    (∀ msg, env.loadModule (.package ("relay-compiler-language-" ++ language)) = Except.error msg →
      getLanguagePlugin env language =
        Except.error (.loadError ("relay-compiler-language-" ++ language) msg)) ∧
    (∀ m, env.loadModule (.package ("relay-compiler-language-" ++ language)) = Except.ok m →
      unwrapDefault m = ModuleValue.other →
      getLanguagePlugin env language =
        Except.error (.loadError ("relay-compiler-language-" ++ language)
          "Expected plugin to export a function.")) := by
  constructor
  · intro msg hm
    simp [getLanguagePlugin, hlang, hfs, hm, requireTargetName]
  · intro m hm hother
    simp [getLanguagePlugin, hlang, hfs, hm, hother, requireTargetName]

/-- C8 witness: the language `custom` over the empty filesystem (module
loads fail with `Cannot find module`) yields the wrapped error naming
`relay-compiler-language-custom`. -/
theorem getLanguagePlugin_load_failure_witness :
    getLanguagePlugin emptyFsEnv "custom" =
      Except.error (PluginError.loadError "relay-compiler-language-custom" "Cannot find module") :=
  (getLanguagePlugin_load_failure emptyFsEnv "custom" (by decide) rfl).1 "Cannot find module" rfl

/-- C9: every run that constructs its two file searches gives the
application-source search the generated-artifact pattern
`**/*.graphql.*` in front of the user excludes, and gives the standalone
schema-document search the main schema file's path relative to the
source directory in front of the user excludes. -/
theorem run_two_searches_excludes (env : Env) (options : RunOptions) (tr : RunTrace)
    (h : run env options = Except.ok tr) :
    tr.sourceSearch.exclude = "**/*.graphql.*" :: options.exclude ∧
    tr.graphqlSearch.exclude =
      pathRelative (resolvePath env.cwd options.src) (resolvePath env.cwd options.schema)
        :: options.exclude := by
  obtain ⟨hval, schema, lp, hs, hp, htr⟩ := run_ok_inversion env options tr h
  subst htr
  exact ⟨rfl, rfl⟩

/-- C9 witness: the concrete successful run's searches carry the two
prepended exclude patterns. -/
theorem run_two_searches_excludes_witness :
    okTrace.sourceSearch.exclude = "**/*.graphql.*" :: baseOptions.exclude ∧
    okTrace.graphqlSearch.exclude =
      pathRelative (resolvePath okEnv.cwd baseOptions.src) (resolvePath okEnv.cwd baseOptions.schema)
        :: baseOptions.exclude :=
  run_two_searches_excludes okEnv baseOptions okTrace rfl

/-- C10: the root-file search is a total function of the path (its Lean
definition is structurally recursive over the component list, mirroring
the `while` loop whose `dirname` step strictly shortens the path), it
stops without a check at a directory that is its own parent (the
filesystem root), and it returns true exactly when one of the walked
directories — the non-root prefixes of the input path — contains an
entry named `.git`, `.hg` or `.watchmanconfig`. -/
theorem hasWatchmanRootFile_terminates_iff (fsEx : AbsPath → Bool) (p : AbsPath) :
    (hasWatchmanRootFile fsEx p = true ↔
      ∃ q : AbsPath, q ≠ [] ∧ q <+: p ∧
        ∃ f ∈ WATCHMAN_ROOT_FILES, fsEx (joinPath q f) = true) ∧
    (dirname p = p → hasWatchmanRootFile fsEx p = false) := by
  constructor
  · rw [hasWatchmanRootFile_spec]
    constructor
    · rintro ⟨q, hne, hpre, hq⟩
      rw [List.any_eq_true] at hq
      exact ⟨q, hne, hpre, hq⟩
    · rintro ⟨q, hne, hpre, hq⟩
      exact ⟨q, hne, hpre, List.any_eq_true.mpr hq⟩
  · intro hd
    have hp : p = [] := by
      cases p with
      | nil => rfl
      | cons a as =>
        have hlen := congrArg List.length hd
        simp [dirname] at hlen
    subst hp
    rfl

/-- C10 witness: the characterisation evaluated at a concrete path and
filesystem. -/
theorem hasWatchmanRootFile_terminates_iff_witness :
    (hasWatchmanRootFile okEnv.fsExists ["a"] = true ↔
      ∃ q : AbsPath, q ≠ [] ∧ q <+: ["a"] ∧
        ∃ f ∈ WATCHMAN_ROOT_FILES, okEnv.fsExists (joinPath q f) = true) ∧
    (dirname ["a"] = ["a"] → hasWatchmanRootFile okEnv.fsExists ["a"] = false) :=
  hasWatchmanRootFile_terminates_iff okEnv.fsExists ["a"]

theorem splitOnChar_ne_nil (sep : Char) (s : List Char) : splitOnChar sep s ≠ [] := by
  induction s with
  | nil => simp [splitOnChar]
  | cons c rest ih =>
    cases h : splitOnChar sep rest with
    | nil => exact absurd h ih
    | cons l ls => by_cases hc : c = sep <;> simp [splitOnChar, h, hc]

theorem joinLast_ne_nil (xs ys : List (List Char)) (hys : ys ≠ []) : joinLast xs ys ≠ [] := by
  match xs, ys with
  | [], ys => simpa [joinLast] using hys
  | [x], [] => simp [joinLast]
  | [x], y :: ys => simp [joinLast]
  | x :: x2 :: xs, ys => simp [joinLast]

theorem splitOnChar_append (sep : Char) (a b : List Char) :
    splitOnChar sep (a ++ b) = joinLast (splitOnChar sep a) (splitOnChar sep b) := by
  induction a with
  | nil =>
    cases h : splitOnChar sep b with
    | nil => exact absurd h (splitOnChar_ne_nil sep b)
    | cons l ls => simp [splitOnChar, joinLast, h]
  | cons c rest ih =>
    cases h : splitOnChar sep rest with
    | nil => exact absurd h (splitOnChar_ne_nil sep rest)
    | cons l ls =>
      by_cases hc : c = sep
      · subst hc
        cases ls with
        | nil =>
          cases hb : splitOnChar c b with
          | nil => exact absurd hb (splitOnChar_ne_nil c b)
          | cons b0 bs => simp [splitOnChar, joinLast, ih, h, hb]
        | cons l2 ls2 => simp [splitOnChar, joinLast, ih, h]
      · cases ls with
        | nil =>
          cases hb : splitOnChar sep b with
          | nil => exact absurd hb (splitOnChar_ne_nil sep b)
          | cons b0 bs => simp [splitOnChar, joinLast, ih, h, hb, hc]
        | cons l2 ls2 => simp [splitOnChar, joinLast, ih, h, hc]

theorem joinLast_nil_cons (xs ys : List (List Char)) (h : xs ≠ []) :
    joinLast xs ([] :: ys) = xs ++ ys := by
  induction xs with
  | nil => exact absurd rfl h
  | cons x xs ih =>
    cases xs with
    | nil => simp [joinLast]
    | cons x2 xs2 =>
      have := ih (by simp)
      simp only [joinLast]
      rw [this]
      simp

theorem trimLeft_ws_cons (c : Char) (x : List Char) (h : isWSChar c = true) :
    trimLeft (c :: x) = trimLeft x := by
  simp [trimLeft, List.dropWhile_cons, h]

theorem trimLeft_not_ws_cons (c : Char) (x : List Char) (h : isWSChar c = false) :
    trimLeft (c :: x) = c :: x := by
  simp [trimLeft, List.dropWhile_cons, h]

theorem takeWhile_append_all {α : Type} (p : α → Bool) (x y : List α) (h : x.all p = true) :
    (x ++ y).takeWhile p = x ++ y.takeWhile p := by
  induction x with
  | nil => simp
  | cons a l ih =>
    rw [List.all_cons, Bool.and_eq_true] at h
    simp [List.takeWhile_cons, h.1, ih h.2]

theorem dropWhile_append_all {α : Type} (p : α → Bool) (x y : List α) (h : x.all p = true) :
    (x ++ y).dropWhile p = y.dropWhile p := by
  induction x with
  | nil => simp
  | cons a l ih =>
    rw [List.all_cons, Bool.and_eq_true] at h
    simp [List.dropWhile_cons, h.1, ih h.2]

theorem splitOnChar_of_no_sep (sep : Char) (x : List Char) (h : x.all (· != sep) = true) :
    splitOnChar sep x = [x] := by
  induction x with
  | nil => rfl
  | cons c l ih =>
    rw [List.all_cons, Bool.and_eq_true] at h
    have hc : c ≠ sep := bne_iff_ne.mp h.1
    simp [splitOnChar, ih h.2, hc]

theorem splitOnChar_append_sep (sep : Char) (x y : List Char) (h : x.all (· != sep) = true) :
    splitOnChar sep (x ++ sep :: y) = x :: splitOnChar sep y := by
  induction x with
  | nil =>
    cases hy : splitOnChar sep y with
    | nil => exact absurd hy (splitOnChar_ne_nil sep y)
    | cons m ms => simp [splitOnChar, hy]
  | cons c l ih =>
    rw [List.all_cons, Bool.and_eq_true] at h
    have hc : c ≠ sep := bne_iff_ne.mp h.1
    cases hrec : splitOnChar sep (l ++ sep :: y) with
    | nil => exact absurd hrec (splitOnChar_ne_nil sep _)
    | cons m ms =>
      rw [ih h.2] at hrec
      cases hrec
      simp [splitOnChar, ih h.2, hc]

theorem unlines_splitOnChar (ls : List (List Char)) (hne : ls ≠ [])
    (h : ∀ l ∈ ls, l.all (· != '\n') = true) :
    splitOnChar '\n' (unlines ls) = ls := by
  induction ls with
  | nil => exact absurd rfl hne
  | cons l ls ih =>
    cases ls with
    | nil => exact splitOnChar_of_no_sep _ _ (h l (by simp))
    | cons l2 ls2 =>
      have hstep : unlines (l :: l2 :: ls2) = l ++ '\n' :: unlines (l2 :: ls2) := rfl
      rw [hstep, splitOnChar_append_sep _ _ _ (h l (by simp))]
      rw [ih (by simp) (fun x hx => h x (by simp [hx]))]

theorem isDirectiveLine_ws_cons (c : Char) (l : List Char) (h : isWSChar c = true) :
    isDirectiveLine (c :: l) = isDirectiveLine l := by
  simp [isDirectiveLine, trimLeft_ws_cons _ _ h]

theorem splitLines_injectDirectives (src : String) (s0 : List Char) (srest : List (List Char))
    (hsrc : splitOnChar '\n' src.data = s0 :: srest) :
    splitLines (injectDirectives src).data =
      [] :: ("  directive @include(if: Boolean) on FRAGMENT_SPREAD | FIELD" : String).data
        :: ("  directive @skip(if: Boolean) on FRAGMENT_SPREAD | FIELD" : String).data
        :: [] :: ((("  " : String).data ++ s0) :: (srest ++ [("  " : String).data])) := by
  have hdata : (injectDirectives src).data =
      directivesPrefix.data ++ (src.data ++ ("\n  " : String).data) := by
    simp [injectDirectives, String.data_append]
  have hP : splitOnChar '\n' directivesPrefix.data =
      [[], ("  directive @include(if: Boolean) on FRAGMENT_SPREAD | FIELD" : String).data,
       ("  directive @skip(if: Boolean) on FRAGMENT_SPREAD | FIELD" : String).data,
       [], ("  " : String).data] := by decide
  have hS : splitOnChar '\n' (("\n  " : String).data) = [[], ("  " : String).data] := by decide
  rw [splitLines, hdata, splitOnChar_append, splitOnChar_append, hP, hS, hsrc]
  rw [joinLast_nil_cons (s0 :: srest) _ (by simp)]
  simp [joinLast]

theorem schemaDirectives_inject (src : String) :
    schemaDirectives (injectDirectives src) =
      includeDirectiveDecl :: skipDirectiveDecl :: schemaDirectives src := by
  cases hsrc : splitOnChar '\n' src.data with
  | nil => exact absurd hsrc (splitOnChar_ne_nil _ _)
  | cons s0 srest =>
    have hlines := splitLines_injectDirectives src s0 srest hsrc
    have h6 : isDirectiveLine (' ' :: ' ' :: s0) = isDirectiveLine s0 := by
      rw [isDirectiveLine_ws_cons ' ' _ rfl, isDirectiveLine_ws_cons ' ' _ rfl]
    have h7 : trimLeft (' ' :: ' ' :: s0) = trimLeft s0 := by
      rw [trimLeft_ws_cons ' ' _ rfl, trimLeft_ws_cons ' ' _ rfl]
    have hg1 : parseDirectiveDecl (trimLeft
        (("  directive @include(if: Boolean) on FRAGMENT_SPREAD | FIELD" : String).data)) =
        includeDirectiveDecl := by decide
    have hg2 : parseDirectiveDecl (trimLeft
        (("  directive @skip(if: Boolean) on FRAGMENT_SPREAD | FIELD" : String).data)) =
        skipDirectiveDecl := by decide
    have hf1 : isDirectiveLine ([] : List Char) = false := by decide
    have hf2 : isDirectiveLine
        (("  directive @include(if: Boolean) on FRAGMENT_SPREAD | FIELD" : String).data) = true := by
      decide
    have hf3 : isDirectiveLine
        (("  directive @skip(if: Boolean) on FRAGMENT_SPREAD | FIELD" : String).data) = true := by
      decide
    have hf4 : isDirectiveLine (("  " : String).data) = false := by decide
    unfold schemaDirectives
    rw [hlines, splitLines, hsrc]
    by_cases hd : isDirectiveLine s0 = true
    · simp [List.filter_cons, List.filter_append, hf1, hf2, hf3, hf4, h6, hd, h7, hg1, hg2]
    · simp [List.filter_cons, List.filter_append, hf1, hf2, hf3, hf4, h6, hd, hg1, hg2]

theorem String_mk_data (s : String) : String.mk s.data = s := rfl

theorem isNameChar_not_ws (c : Char) (h : isNameChar c = true) : isWSChar c = false := by
  by_cases h1 : c = ' '
  · subst h1
    exact absurd h (by decide)
  · by_cases h2 : c = '\t'
    · subst h2
      exact absurd h (by decide)
    · simp only [isWSChar, Bool.or_eq_false_iff]
      exact ⟨beq_eq_false_iff_ne.mpr h1, beq_eq_false_iff_ne.mpr h2⟩

theorem all_bne_of_all_nameChar (l : List Char) (ch : Char) (hch : isNameChar ch = false)
    (h : l.all isNameChar = true) : l.all (· != ch) = true := by
  rw [List.all_eq_true] at h ⊢
  intro x hx
  rw [bne_iff_ne]
  intro he
  subst he
  rw [h x hx] at hch
  cases hch

theorem header_data (t : TypeDef) :
    ("type " ++ t.name ++ " \x7b").data =
      't' :: 'y' :: 'p' :: 'e' :: ' ' :: (t.name.data ++ [' ', '\x7b']) := by
  simp [String.data_append]

theorem trimLeft_field_line (f : String × String) (hf : wfName f.1 = true) :
    trimLeft (("  " ++ f.1 ++ ": " ++ f.2).data) = f.1.data ++ ':' :: ' ' :: f.2.data := by
  have hd : ("  " ++ f.1 ++ ": " ++ f.2).data =
      ' ' :: ' ' :: (f.1.data ++ ':' :: ' ' :: f.2.data) := by
    simp [String.data_append]
  rw [hd, trimLeft_ws_cons ' ' _ rfl, trimLeft_ws_cons ' ' _ rfl]
  rw [wfName, Bool.and_eq_true] at hf
  cases hc : f.1.data with
  | nil =>
    rw [hc] at hf
    simp at hf
  | cons c cs =>
    have hcn : isNameChar c = true := by
      have h2 := hf.2
      rw [hc, List.all_cons, Bool.and_eq_true] at h2
      exact h2.1
    exact trimLeft_not_ws_cons c _ (isNameChar_not_ws c hcn)

theorem printTypeLines_map_trimLeft (t : TypeDef) (h : wfTypeDef t = true) :
    (printTypeLines t).map trimLeft =
      ("type " ++ t.name ++ " \x7b").data ::
        ((t.fields.map fun f => f.1.data ++ ':' :: ' ' :: f.2.data) ++ [['\x7d']]) := by
  rw [wfTypeDef, Bool.and_eq_true] at h
  unfold printTypeLines
  simp only [List.map_cons, List.map_append, List.map_map, List.map_nil]
  have hhead : trimLeft (("type " ++ t.name ++ " \x7b").data) =
      ("type " ++ t.name ++ " \x7b").data := by
    rw [header_data]
    exact trimLeft_not_ws_cons 't' _ rfl
  rw [hhead]
  have htail : trimLeft ['\x7d'] = ['\x7d'] := rfl
  rw [htail]
  have hmap : List.map (trimLeft ∘ fun f => ("  " ++ f.1 ++ ": " ++ f.2).data) t.fields =
      List.map (fun f => f.1.data ++ ':' :: ' ' :: f.2.data) t.fields := by
    apply List.map_congr_left
    intro f hf
    have hwff : wfName f.1 = true := by
      have h2 := h.2
      rw [List.all_eq_true] at h2
      have h3 := h2 f hf
      rw [Bool.and_eq_true] at h3
      exact h3.1
    simpa [Function.comp] using trimLeft_field_line f hwff
  rw [hmap]
  exact List.cons_append _ _ _

theorem parseTypesAux_skip (l : List Char) (rest : List (List Char))
    (h : ("type ".toList).isPrefixOf l = false) :
    parseTypesAux (l :: rest) none = parseTypesAux rest none := by
  simp only [parseTypesAux, h, Bool.false_eq_true, if_false]

theorem parseTypesAux_field_step (l : List Char) (rest : List (List Char)) (n : String)
    (acc : List (String × String)) (h1 : l ≠ ['\x7d']) (h2 : l ≠ []) :
    parseTypesAux (l :: rest) (some (n, acc)) =
      parseTypesAux rest (some (n, acc ++ [(String.mk (l.takeWhile (· != ':')),
        String.mk (trimLeft ((l.dropWhile (· != ':')).drop 1)))])) := by
  simp [parseTypesAux, h1, h2]

theorem isPrefixOf_append_self (l x : List Char) : l.isPrefixOf (l ++ x) = true := by
  induction l with
  | nil => exact List.isPrefixOf_iff_prefix.mpr List.nil_prefix
  | cons c cs ih => simp [List.isPrefixOf, ih]

theorem header_data_append (t : TypeDef) :
    ("type " ++ t.name ++ " \x7b").data =
      ['t', 'y', 'p', 'e', ' '] ++ t.name.data ++ [' ', '\x7b'] := by
  simp [String.data_append]

theorem field_line_data_append (f : String × String) :
    ("  " ++ f.1 ++ ": " ++ f.2).data =
      [' ', ' '] ++ f.1.data ++ [':', ' '] ++ f.2.data := by
  simp [String.data_append]

theorem parseTypesAux_fields (n : String) (fs : List (String × String)) :
    ∀ (acc : List (String × String)) (rest : List (List Char)),
      fs.all (fun f => wfName f.1 && wfName f.2) = true →
      parseTypesAux ((fs.map fun f => f.1.data ++ ':' :: ' ' :: f.2.data) ++ (['\x7d'] :: rest))
          (some (n, acc)) =
        ⟨n, acc ++ fs⟩ :: parseTypesAux rest none := by
  induction fs with
  | nil =>
    intro acc rest _
    simp [parseTypesAux]
  | cons f fs ih =>
    intro acc rest hwf
    rw [List.all_cons, Bool.and_eq_true] at hwf
    obtain ⟨hf, hfs⟩ := hwf
    rw [Bool.and_eq_true] at hf
    obtain ⟨hf1, hf2⟩ := hf
    rw [wfName, Bool.and_eq_true] at hf1 hf2
    obtain ⟨hne1, hall1⟩ := hf1
    obtain ⟨hne2, hall2⟩ := hf2
    have htake : (f.1.data ++ ':' :: ' ' :: f.2.data).takeWhile (· != ':') = f.1.data := by
      rw [takeWhile_append_all _ _ _ (all_bne_of_all_nameChar _ _ (by decide) hall1)]
      simp [List.takeWhile_cons]
    have hdrop : (f.1.data ++ ':' :: ' ' :: f.2.data).dropWhile (· != ':') =
        ':' :: ' ' :: f.2.data := by
      rw [dropWhile_append_all _ _ _ (all_bne_of_all_nameChar _ _ (by decide) hall1)]
      simp [List.dropWhile_cons]
    have htrim : trimLeft (' ' :: f.2.data) = f.2.data := by
      rw [trimLeft_ws_cons ' ' _ rfl]
      cases hc2 : f.2.data with
      | nil => rfl
      | cons c2 cs2 =>
        have hcn2 : isNameChar c2 = true := by
          rw [hc2, List.all_cons, Bool.and_eq_true] at hall2
          exact hall2.1
        exact trimLeft_not_ws_cons c2 _ (isNameChar_not_ws c2 hcn2)
    have hnee : f.1.data ++ ':' :: ' ' :: f.2.data ≠ ['\x7d'] := by
      cases hc1 : f.1.data with
      | nil =>
        rw [hc1] at hne1
        simp at hne1
      | cons c1 cs1 =>
        have hcn1 : isNameChar c1 = true := by
          rw [hc1, List.all_cons, Bool.and_eq_true] at hall1
          exact hall1.1
        intro heq
        rw [List.cons_append, List.cons.injEq] at heq
        rw [heq.1] at hcn1
        exact absurd hcn1 (by decide)
    have hnn : f.1.data ++ ':' :: ' ' :: f.2.data ≠ [] := by
      intro heq
      rcases List.append_eq_nil.mp heq with ⟨_, h2⟩
      cases h2
    rw [List.map_cons, List.cons_append,
      parseTypesAux_field_step _ _ _ _ hnee hnn, htake, hdrop]
    have hdropone : (':' :: ' ' :: f.2.data).drop 1 = ' ' :: f.2.data := rfl
    rw [hdropone, htrim, String_mk_data, String_mk_data]
    rw [ih (acc ++ [(f.1, f.2)]) rest hfs]
    simp

theorem parseTypesAux_header_step (t : TypeDef) (rest : List (List Char))
    (h : wfName t.name = true) :
    parseTypesAux ((("type " ++ t.name ++ " \x7b").data) :: rest) none =
      parseTypesAux rest (some (t.name, [])) := by
  rw [wfName, Bool.and_eq_true] at h
  have ht : "type ".toList = ['t', 'y', 'p', 'e', ' '] := rfl
  have hpre : ("type ".toList).isPrefixOf (("type " ++ t.name ++ " \x7b").data) = true := by
    rw [header_data_append, ht, List.append_assoc]
    exact isPrefixOf_append_self _ _
  have hname : String.mk (((("type " ++ t.name ++ " \x7b").data).drop 5).takeWhile isNameChar) =
      t.name := by
    rw [header_data]
    have hdrop : ('t' :: 'y' :: 'p' :: 'e' :: ' ' :: (t.name.data ++ [' ', '\x7b'])).drop 5 =
        t.name.data ++ [' ', '\x7b'] := rfl
    rw [hdrop, takeWhile_append_all _ _ _ h.2]
    have h2 : ([' ', '\x7b'].takeWhile isNameChar) = [] := rfl
    rw [h2, List.append_nil, String_mk_data]
  simp only [parseTypesAux, hpre, if_true, hname]

theorem parseTypesAux_printed (ts : List TypeDef) :
    ∀ extra : List (List Char),
      ts.all wfTypeDef = true →
      parseTypesAux ((ts.flatMap printTypeLines).map trimLeft ++ extra) none =
        ts ++ parseTypesAux extra none := by
  induction ts with
  | nil =>
    intro extra _
    simp
  | cons t ts ih =>
    intro extra hwf
    rw [List.all_cons, Bool.and_eq_true] at hwf
    have hwft := hwf.1
    rw [wfTypeDef, Bool.and_eq_true] at hwft
    rw [List.flatMap_cons, List.map_append, List.append_assoc]
    rw [printTypeLines_map_trimLeft t hwf.1]
    rw [List.cons_append, List.append_assoc, List.singleton_append]
    rw [parseTypesAux_header_step t _ hwft.1]
    rw [parseTypesAux_fields t.name t.fields [] _ hwft.2]
    rw [ih extra hwf.2]
    have heta : (⟨t.name, [] ++ t.fields⟩ : TypeDef) = t := rfl
    rw [heta]
    simp

theorem printTypeLines_no_newline (t : TypeDef) (h : wfTypeDef t = true) :
    ∀ l ∈ printTypeLines t, l.all (· != '\n') = true := by
  rw [wfTypeDef, Bool.and_eq_true] at h
  intro l hl
  unfold printTypeLines at hl
  rw [List.mem_append] at hl
  rcases hl with hl | hl
  · rw [List.mem_cons] at hl
    rcases hl with rfl | hl
    · have hn := h.1
      rw [wfName, Bool.and_eq_true] at hn
      rw [header_data_append]
      simp only [List.all_append, Bool.and_eq_true]
      exact ⟨⟨by decide, all_bne_of_all_nameChar _ _ (by decide) hn.2⟩, by decide⟩
    · rw [List.mem_map] at hl
      obtain ⟨f, hf, rfl⟩ := hl
      have hwff : wfName f.1 = true ∧ wfName f.2 = true := by
        have h2 := h.2
        rw [List.all_eq_true] at h2
        have h3 := h2 f hf
        rw [Bool.and_eq_true] at h3
        exact h3
      obtain ⟨hw1, hw2⟩ := hwff
      rw [wfName, Bool.and_eq_true] at hw1 hw2
      rw [field_line_data_append]
      simp only [List.all_append, Bool.and_eq_true]
      exact ⟨⟨⟨by decide, all_bne_of_all_nameChar _ _ (by decide) hw1.2⟩, by decide⟩,
        all_bne_of_all_nameChar _ _ (by decide) hw2.2⟩
  · rw [List.mem_singleton] at hl
    subst hl
    decide

theorem schemaTypes_inject_print (intro : Introspection) (hwf : wfIntrospection intro = true) :
    schemaTypes (injectDirectives (printSchema intro)) = intro.types := by
  rw [wfIntrospection] at hwf
  cases hts : intro.types with
  | nil =>
    have hp : printSchema intro = "" := by
      unfold printSchema
      rw [hts]
      rfl
    rw [hp]
    decide
  | cons t ts =>
    rw [hts] at hwf
    have hnn : ∀ l ∈ (t :: ts).flatMap printTypeLines, l.all (· != '\n') = true := by
      intro l hl
      rw [List.mem_flatMap] at hl
      obtain ⟨ty, hty, hl⟩ := hl
      have hwty : wfTypeDef ty = true := by
        rw [List.all_eq_true] at hwf
        exact hwf ty hty
      exact printTypeLines_no_newline ty hwty l hl
    have hflat : (t :: ts).flatMap printTypeLines =
        ("type " ++ t.name ++ " \x7b").data ::
          (((t.fields.map fun f => ("  " ++ f.1 ++ ": " ++ f.2).data) ++ [['\x7d']])
            ++ ts.flatMap printTypeLines) := by
      rw [List.flatMap_cons]
      rfl
    have hflatne : (t :: ts).flatMap printTypeLines ≠ [] := by
      rw [hflat]
      simp
    have hsplit : splitOnChar '\n' (printSchema intro).data =
        (t :: ts).flatMap printTypeLines := by
      unfold printSchema
      rw [hts]
      exact unlines_splitOnChar _ hflatne hnn
    have hlines := splitLines_injectDirectives (printSchema intro)
      (("type " ++ t.name ++ " \x7b").data)
      (((t.fields.map fun f => ("  " ++ f.1 ++ ": " ++ f.2).data) ++ [['\x7d']])
        ++ ts.flatMap printTypeLines)
      (by rw [hsplit, hflat])
    have hheadtrim : trimLeft (("type " ++ t.name ++ " \x7b").data) =
        ("type " ++ t.name ++ " \x7b").data := by
      rw [header_data]
      exact trimLeft_not_ws_cons 't' _ rfl
    have hmerge : trimLeft (("  " : String).data ++ ("type " ++ t.name ++ " \x7b").data) =
        ("type " ++ t.name ++ " \x7b").data := by
      show trimLeft (' ' :: ' ' :: ("type " ++ t.name ++ " \x7b").data) =
        ("type " ++ t.name ++ " \x7b").data
      rw [trimLeft_ws_cons ' ' _ rfl, trimLeft_ws_cons ' ' _ rfl, hheadtrim]
    unfold schemaTypes
    rw [hlines]
    rw [List.map_cons, List.map_cons, List.map_cons, List.map_cons, List.map_cons,
      List.map_append]
    rw [hmerge]
    have hskip0 : trimLeft ([] : List Char) = [] := rfl
    have hd1 : trimLeft
        (("  directive @include(if: Boolean) on FRAGMENT_SPREAD | FIELD" : String).data) =
        ("directive @include(if: Boolean) on FRAGMENT_SPREAD | FIELD" : String).data := by decide
    have hd2 : trimLeft
        (("  directive @skip(if: Boolean) on FRAGMENT_SPREAD | FIELD" : String).data) =
        ("directive @skip(if: Boolean) on FRAGMENT_SPREAD | FIELD" : String).data := by decide
    rw [hskip0, hd1, hd2]
    have hlast : List.map trimLeft [("  " : String).data] = [[]] := by decide
    rw [hlast]
    have hs1 : ("type ".toList).isPrefixOf ([] : List Char) = false := by decide
    have hs2 : ("type ".toList).isPrefixOf
        (("directive @include(if: Boolean) on FRAGMENT_SPREAD | FIELD" : String).data) = false := by
      decide
    have hs3 : ("type ".toList).isPrefixOf
        (("directive @skip(if: Boolean) on FRAGMENT_SPREAD | FIELD" : String).data) = false := by
      decide
    rw [parseTypesAux_skip _ _ hs1, parseTypesAux_skip _ _ hs2, parseTypesAux_skip _ _ hs3,
      parseTypesAux_skip _ _ hs1]
    have hview : ("type " ++ t.name ++ " \x7b").data ::
        (List.map trimLeft (((t.fields.map fun f => ("  " ++ f.1 ++ ": " ++ f.2).data)
          ++ [['\x7d']]) ++ ts.flatMap printTypeLines) ++ [([] : List Char)]) =
        ((t :: ts).flatMap printTypeLines).map trimLeft ++ [([] : List Char)] := by
      rw [hflat, List.map_cons, hheadtrim, List.cons_append]
    rw [hview]
    rw [parseTypesAux_printed (t :: ts) [[]] hwf]
    have hnil : parseTypesAux [[]] none = [] := rfl
    rw [hnil]
    simp

/-- C5: for every readable schema file whose extension dispatch yields the
SDL source text `source`, the loader parses exactly the fixed directive
text prepended to `source` (`injectDirectives`), so when the source does
not already declare `include` or `skip`, the loaded schema exposes exactly
the two extra directives `include` and `skip`, each with the single
boolean `if` argument and the `FRAGMENT_SPREAD`/`FIELD` locations (the
values of `includeDirectiveDecl` and `skipDirectiveDecl`), in front of
the source's own declarations. -/
theorem getSchema_prepends_include_skip (env : Env) (path : AbsPath) (contents source : String)
    (hread : env.readFile path = some contents)
    (hsource : schemaSDLSource env path contents = Except.ok source)
    (hnodup : ∀ d ∈ schemaDirectives source, d.name ≠ "include" ∧ d.name ≠ "skip") :
    getSchema env path = Except.ok (buildASTSchema (injectDirectives source)) ∧
    (buildASTSchema (injectDirectives source)).directives =
      includeDirectiveDecl :: skipDirectiveDecl :: schemaDirectives source := by
  constructor
  · simp [getSchema, hread, hsource]
  · exact schemaDirectives_inject source

/-- C5 witness: a concrete SDL schema file without directive declarations
loads with exactly the two injected directives. -/
theorem getSchema_prepends_include_skip_witness :
    getSchema okEnv ["schema.graphql"] =
      Except.ok (buildASTSchema (injectDirectives "type Query")) ∧
    (buildASTSchema (injectDirectives "type Query")).directives =
      includeDirectiveDecl :: skipDirectiveDecl :: schemaDirectives "type Query" :=
  getSchema_prepends_include_skip okEnv ["schema.graphql"] "type Query" "type Query" rfl rfl
    (by decide)

/-- C6: a schema file with the `.json` extension is first decoded as
introspection JSON and converted to SDL text (`printSchema`) before the
SDL parse step, and the resulting schema's types and fields match the
introspection data exactly; a file with any other extension is parsed as
SDL text directly. -/
theorem getSchema_json_dispatch (env : Env) (path : AbsPath) (contents : String)
    (hread : env.readFile path = some contents) :
    (extnameOfPath path = ".json" →
      ∀ i, env.decodeIntrospection contents = some i →
        wfIntrospection i = true →
        getSchema env path = Except.ok (buildASTSchema (injectDirectives (printSchema i))) ∧
        (buildASTSchema (injectDirectives (printSchema i))).types = i.types) ∧
    (extnameOfPath path ≠ ".json" →
      getSchema env path = Except.ok (buildASTSchema (injectDirectives contents))) := by
  constructor
  · intro hext i hdec hwf
    constructor
    · simp [getSchema, hread, schemaSDLSource, hext, hdec]
    · exact schemaTypes_inject_print i hwf
  · intro hext
    simp [getSchema, hread, schemaSDLSource, hext]

/-- C6 witness: a concrete `.json` schema whose decoder yields one type
with one field loads into a schema with exactly that type and field. -/
theorem getSchema_json_dispatch_witness :
    getSchema jsonEnv ["schema.json"] =
      Except.ok (buildASTSchema (injectDirectives
        (printSchema ⟨[⟨"Query", [("hero", "Character")]⟩]⟩))) ∧
    (buildASTSchema (injectDirectives
        (printSchema ⟨[⟨"Query", [("hero", "Character")]⟩]⟩))).types =
      [⟨"Query", [("hero", "Character")]⟩] :=
  (getSchema_json_dispatch jsonEnv ["schema.json"] "introspection-json" rfl).1 rfl
    ⟨[⟨"Query", [("hero", "Character")]⟩]⟩ rfl (by decide)

end RelayCompilerRun
